import Mathlib

/-!
Verification of the qr-linker short-identifier allocation and redirect
engine (Go sources: utils/hash.go, database/db.go, main.go), shallowly
embedded in Lean 4.

Modelling conventions:
* Go byte slices become `List Nat` (each entry a byte value), Go strings
  used as identifiers become `List Char`, target URLs stay `String`.
* `crypto/rand.Read` is modelled by an entropy supply
  `supply : Nat → Nat → Except String (List Nat)`: the first argument is
  the index of the read call (the Go code performs several reads in one
  allocation), the second the requested byte count.  A successful read
  of `n` bytes yields a list of length `n`, as `crypto/rand` guarantees.
* Fallible Go functions returning `(T, error)` become
  `Except String T`.
-/

namespace QrLinker

/-- The base64url alphabet used by Go's `encoding/base64` `URLEncoding`. -/
def b64Alphabet : List Char :=
  "ABCDEFGHIJKLMNOPQRSTUVWXYZabcdefghijklmnopqrstuvwxyz0123456789-_".toList

/-- Character at index `i` of the base64url alphabet. -/
def b64Char (i : Nat) : Char := b64Alphabet.getD i 'A'

/-- Go's `encoding/base64` encoder with `StdPadding` over the URL alphabet:
three input bytes become four alphabet characters; a final group of two
bytes becomes three characters plus one `=` pad; a final single byte
becomes two characters plus two `=` pads.  Faithful to the shift/mask
arithmetic of `base64.Encoding.Encode`. -/
def encodeChunks : List Nat → List Char
  | b1 :: b2 :: b3 :: rest =>
    b64Char ((((b1 <<< 16) ||| (b2 <<< 8) ||| b3) >>> 18) &&& 63) ::
    b64Char ((((b1 <<< 16) ||| (b2 <<< 8) ||| b3) >>> 12) &&& 63) ::
    b64Char ((((b1 <<< 16) ||| (b2 <<< 8) ||| b3) >>> 6) &&& 63) ::
    b64Char (((b1 <<< 16) ||| (b2 <<< 8) ||| b3) &&& 63) ::
    encodeChunks rest
  | [b1, b2] =>
    [b64Char ((((b1 <<< 16) ||| (b2 <<< 8)) >>> 18) &&& 63),
     b64Char ((((b1 <<< 16) ||| (b2 <<< 8)) >>> 12) &&& 63),
     b64Char ((((b1 <<< 16) ||| (b2 <<< 8)) >>> 6) &&& 63),
     '=']
  | [b1] =>
    [b64Char (((b1 <<< 16) >>> 18) &&& 63),
     b64Char (((b1 <<< 16) >>> 12) &&& 63),
     '=', '=']
  | [] => []

/-- The data characters of the encoding, without the `=` padding: what
`strings.TrimRight(encoded, "=")` leaves behind. -/
def unpadded : List Nat → List Char
  | b1 :: b2 :: b3 :: rest =>
    b64Char ((((b1 <<< 16) ||| (b2 <<< 8) ||| b3) >>> 18) &&& 63) ::
    b64Char ((((b1 <<< 16) ||| (b2 <<< 8) ||| b3) >>> 12) &&& 63) ::
    b64Char ((((b1 <<< 16) ||| (b2 <<< 8) ||| b3) >>> 6) &&& 63) ::
    b64Char (((b1 <<< 16) ||| (b2 <<< 8) ||| b3) &&& 63) ::
    unpadded rest
  | [b1, b2] =>
    [b64Char ((((b1 <<< 16) ||| (b2 <<< 8)) >>> 18) &&& 63),
     b64Char ((((b1 <<< 16) ||| (b2 <<< 8)) >>> 12) &&& 63),
     b64Char ((((b1 <<< 16) ||| (b2 <<< 8)) >>> 6) &&& 63)]
  | [b1] =>
    [b64Char (((b1 <<< 16) >>> 18) &&& 63),
     b64Char (((b1 <<< 16) >>> 12) &&& 63)]
  | [] => []

/-- Go's `strings.TrimRight(s, "=")` on a character list. -/
def trimRightEq (l : List Char) : List Char :=
  (l.reverse.dropWhile (fun c => c == '=')).reverse

theorem b64Char_ne_eq (i : Nat) (hi : i ≤ 63) : (b64Char i == '=') = false := by
  revert hi; revert i; decide

theorem b64Char_mem_alphabet (i : Nat) (hi : i ≤ 63) : b64Char i ∈ b64Alphabet := by
  revert hi; revert i; decide

theorem and63_le (x : Nat) : x &&& 63 ≤ 63 := Nat.and_le_right

/-- Dropping from an appended list: if the second part does not vanish,
the first part is untouched. -/
theorem dropWhile_append_char (p : Char → Bool) (a b : List Char) :
    (a ++ b).dropWhile p =
      (if (a.dropWhile p).isEmpty then b.dropWhile p else a.dropWhile p ++ b) := by
  induction a with
  | nil => simp
  | cons x xs ih =>
    by_cases hx : p x
    · simpa [List.dropWhile_cons, hx] using ih
    · simp [List.dropWhile_cons, hx]

/-- Trimming `=` off an append whose left part ends in a non-`=`
character only affects the right part. -/
theorem trimRightEq_append (g t : List Char) (c : Char)
    (hg : g.getLast? = some c) (hc : (c == '=') = false) :
    trimRightEq (g ++ t) = g ++ trimRightEq t := by
  unfold trimRightEq
  rw [List.reverse_append]
  rw [dropWhile_append_char]
  have hrev : g.reverse.dropWhile (fun x => x == '=') = g.reverse := by
    have hhead : g.reverse.head? = some c := by
      rw [List.head?_reverse]; exact hg
    cases hgr : g.reverse with
    | nil => simp
    | cons y ys =>
      rw [hgr] at hhead
      simp only [List.head?_cons, Option.some.injEq] at hhead
      subst hhead
      simp [List.dropWhile_cons, hc]
  by_cases ht : (t.reverse.dropWhile (fun x => x == '=')).isEmpty
  · simp only [ht, if_true]
    rw [List.isEmpty_iff] at ht
    rw [hrev, ht]
    simp
  · simp only [ht, if_false]
    simp

/-- Trimming a list of four non-pad characters followed by a tail trims
only within the tail. -/
theorem trimRightEq_cons4 (c1 c2 c3 c4 : Char) (t u : List Char)
    (h4 : (c4 == '=') = false) (ht : trimRightEq t = u) :
    trimRightEq (c1 :: c2 :: c3 :: c4 :: t) = c1 :: c2 :: c3 :: c4 :: u := by
  have hsplit : c1 :: c2 :: c3 :: c4 :: t = [c1, c2, c3, c4] ++ t := by simp
  rw [hsplit]
  rw [trimRightEq_append [c1, c2, c3, c4] t c4 (by simp) h4]
  rw [ht]
  simp

theorem trimRightEq_encodeChunks (bs : List Nat) :
    trimRightEq (encodeChunks bs) = unpadded bs := by
  induction bs using encodeChunks.induct with
  | case1 b1 b2 b3 rest ih =>
    rw [encodeChunks, unpadded]
    exact trimRightEq_cons4 _ _ _ _ _ _ (b64Char_ne_eq _ (and63_le _)) ih
  | case2 b1 b2 =>
    rw [encodeChunks, unpadded]
    unfold trimRightEq
    rw [show ([b64Char ((((b1 <<< 16) ||| (b2 <<< 8)) >>> 18) &&& 63),
              b64Char ((((b1 <<< 16) ||| (b2 <<< 8)) >>> 12) &&& 63),
              b64Char ((((b1 <<< 16) ||| (b2 <<< 8)) >>> 6) &&& 63),
              '=']).reverse =
            '=' :: [b64Char ((((b1 <<< 16) ||| (b2 <<< 8)) >>> 6) &&& 63),
                    b64Char ((((b1 <<< 16) ||| (b2 <<< 8)) >>> 12) &&& 63),
                    b64Char ((((b1 <<< 16) ||| (b2 <<< 8)) >>> 18) &&& 63)] from by simp]
    rw [List.dropWhile_cons]
    simp only [beq_self_eq_true, if_true]
    rw [List.dropWhile_cons]
    rw [b64Char_ne_eq _ (and63_le _)]
    simp
  | case3 b1 =>
    rw [encodeChunks, unpadded]
    unfold trimRightEq
    rw [show ([b64Char (((b1 <<< 16) >>> 18) &&& 63),
              b64Char (((b1 <<< 16) >>> 12) &&& 63),
              '=', '=']).reverse =
            '=' :: '=' :: [b64Char (((b1 <<< 16) >>> 12) &&& 63),
                           b64Char (((b1 <<< 16) >>> 18) &&& 63)] from by simp]
    rw [List.dropWhile_cons]
    simp only [beq_self_eq_true, if_true]
    rw [List.dropWhile_cons]
    simp only [beq_self_eq_true, if_true]
    rw [List.dropWhile_cons]
    rw [b64Char_ne_eq _ (and63_le _)]
    simp
  | case4 => rfl

theorem unpadded_length (bs : List Nat) :
    (unpadded bs).length = (4 * bs.length + 2) / 3 := by
  induction bs using unpadded.induct with
  | case1 b1 b2 b3 rest ih =>
    rw [unpadded]
    simp only [List.length_cons, ih, List.length_cons]
    omega
  | case2 b1 b2 => simp [unpadded]
  | case3 b1 => simp [unpadded]
  | case4 => rfl

theorem unpadded_mem_alphabet (bs : List Nat) :
    ∀ c ∈ unpadded bs, c ∈ b64Alphabet := by
  induction bs using unpadded.induct with
  | case1 b1 b2 b3 rest ih =>
    intro c hc
    rw [unpadded] at hc
    simp only [List.mem_cons] at hc
    rcases hc with h | h | h | h | h
    · exact h ▸ b64Char_mem_alphabet _ (and63_le _)
    · exact h ▸ b64Char_mem_alphabet _ (and63_le _)
    · exact h ▸ b64Char_mem_alphabet _ (and63_le _)
    · exact h ▸ b64Char_mem_alphabet _ (and63_le _)
    · exact ih c h
  | case2 b1 b2 =>
    intro c hc
    rw [unpadded] at hc
    simp only [List.mem_cons, List.not_mem_nil, or_false] at hc
    rcases hc with h | h | h <;> exact h ▸ b64Char_mem_alphabet _ (and63_le _)
  | case3 b1 =>
    intro c hc
    rw [unpadded] at hc
    simp only [List.mem_cons, List.not_mem_nil, or_false] at hc
    rcases hc with h | h <;> exact h ▸ b64Char_mem_alphabet _ (and63_le _)
  | case4 => intro c hc; simp [unpadded] at hc

/-! ## utils/hash.go -/

/-- `hashLength` constant of utils/hash.go. -/
def hashLength : Nat := 6

/-- `maxRetries` constant of utils/hash.go. -/
def maxRetries : Nat := 5

/-- The shared body of `GenerateShortHash` and of the inlined escalation
code in `GenerateUniqueHash`: base64url-encode the drawn bytes, trim the
`=` padding, and cut the result down to `length` characters when it is
longer (`hash = hash[:length]`). -/
def mkHash (bytes : List Nat) (length : Nat) : List Char :=
  let hash := trimRightEq (encodeChunks bytes)
  if length < hash.length then hash.take length else hash

/-- One generation attempt: read `length` random bytes (read call number
`idx` of the entropy supply) and build the candidate; an entropy failure
propagates.  `GenerateShortHash` is exactly this at `hashLength`. -/
def genAt (supply : Nat → Nat → Except String (List Nat))
    (idx length : Nat) : Except String (List Char) :=
  match supply idx length with
  | Except.error e => Except.error e
  | Except.ok bytes => Except.ok (mkHash bytes length)

/-- `GenerateShortHash` of utils/hash.go: a candidate of the default
length. -/
def generateShortHash (supply : Nat → Nat → Except String (List Nat))
    (idx : Nat) : Except String (List Char) :=
  genAt supply idx hashLength

/-- The default-length retry loop of `GenerateUniqueHash`
(`for i := 0; i < maxRetries; i++`), one entry of `idxs` per iteration:
generate at the default length, consult the existence oracle, and stop
at the first fresh candidate. -/
def retryLoop (supply : Nat → Nat → Except String (List Nat))
    (checkExists : List Char → Except String Bool) :
    List Nat → Except String (Option (List Char))
  | [] => Except.ok none
  | idx :: rest =>
    match genAt supply idx hashLength with
    | Except.error e => Except.error e
    | Except.ok hash =>
      match checkExists hash with
      | Except.error e => Except.error e
      | Except.ok true => retryLoop supply checkExists rest
      | Except.ok false => Except.ok (some hash)

/-- The escalation loop of `GenerateUniqueHash`
(`for length := hashLength+1; length <= hashLength+4; length++`), one
`(read call index, length)` pair per iteration; the loop body inlines
the same generate-encode-trim-truncate code as `GenerateShortHash`. -/
def escalationLoop (supply : Nat → Nat → Except String (List Nat))
    (checkExists : List Char → Except String Bool) :
    List (Nat × Nat) → Except String (Option (List Char))
  | [] => Except.ok none
  | (idx, len) :: rest =>
    match genAt supply idx len with
    | Except.error e => Except.error e
    | Except.ok hash =>
      match checkExists hash with
      | Except.error e => Except.error e
      | Except.ok true => escalationLoop supply checkExists rest
      | Except.ok false => Except.ok (some hash)

/-- Read call indices of the default-length phase (`i = 0 .. maxRetries-1`). -/
def retryIndices : List Nat := List.range maxRetries

/-- Read call index and candidate length for each escalation iteration
(`length = hashLength+1 .. hashLength+4`). -/
def escalationPairs : List (Nat × Nat) :=
  [(maxRetries, hashLength + 1), (maxRetries + 1, hashLength + 2),
   (maxRetries + 2, hashLength + 3), (maxRetries + 3, hashLength + 4)]

/-- `GenerateUniqueHash` of utils/hash.go: up to `maxRetries` attempts at
the default length, then one attempt at each escalated length; when
every attempt collides the function returns the empty string with a nil
error (`return "", nil`). -/
def generateUniqueHash (supply : Nat → Nat → Except String (List Nat))
    (checkExists : List Char → Except String Bool) :
    Except String (List Char) :=
  match retryLoop supply checkExists retryIndices with
  | Except.error e => Except.error e
  | Except.ok (some hash) => Except.ok hash
  | Except.ok none =>
    match escalationLoop supply checkExists escalationPairs with
    | Except.error e => Except.error e
    | Except.ok (some hash) => Except.ok hash
    | Except.ok none => Except.ok []

/-- An entropy supply that never fails, drawing bytes from `bytes`. -/
def okSupply (bytes : Nat → Nat → List Nat) :
    Nat → Nat → Except String (List Nat) :=
  fun idx len => Except.ok (bytes idx len)

/-- An existence oracle that never fails, answering `ex`. -/
def okCheck (ex : List Char → Bool) : List Char → Except String Bool :=
  fun hash => Except.ok (ex hash)

/-- The nine candidates the allocation examines, in examination order, as
the specification describes them: five default-length candidates, then
one candidate at each of the lengths 7, 8, 9, 10. -/
def specCandidates (bytes : Nat → Nat → List Nat) : List (List Char) :=
  [mkHash (bytes 0 6) 6, mkHash (bytes 1 6) 6, mkHash (bytes 2 6) 6,
   mkHash (bytes 3 6) 6, mkHash (bytes 4 6) 6,
   mkHash (bytes 5 7) 7, mkHash (bytes 6 8) 8,
   mkHash (bytes 7 9) 9, mkHash (bytes 8 10) 10]

/-- The specification's allocation outcome: the first candidate the
oracle reports as fresh, and the empty identifier when every candidate
collides (mirroring the code's exhaustion value). -/
def specFirstFresh (bytes : Nat → Nat → List Nat) (ex : List Char → Bool) :
    List Char :=
  match (specCandidates bytes).find? (fun c => !(ex c)) with
  | some c => c
  | none => []

theorem retryIndices_eq : retryIndices = [0, 1, 2, 3, 4] := by
  simp [retryIndices, maxRetries]
  decide

theorem escalationPairs_eq :
    escalationPairs = [(5, 7), (6, 8), (7, 9), (8, 10)] := by
  simp [escalationPairs, maxRetries, hashLength]

/-- Characterization of `GenerateUniqueHash` over a fault-free supply and
oracle: it returns exactly the first fresh candidate of the nine, in
order, and the empty identifier on exhaustion. -/
theorem generateUniqueHash_eq_specFirstFresh
    (bytes : Nat → Nat → List Nat) (ex : List Char → Bool) :
    generateUniqueHash (okSupply bytes) (okCheck ex) =
      Except.ok (specFirstFresh bytes ex) := by
  cases h0 : ex (mkHash (bytes 0 6) 6) <;>
  cases h1 : ex (mkHash (bytes 1 6) 6) <;>
  cases h2 : ex (mkHash (bytes 2 6) 6) <;>
  cases h3 : ex (mkHash (bytes 3 6) 6) <;>
  cases h4 : ex (mkHash (bytes 4 6) 6) <;>
  cases h5 : ex (mkHash (bytes 5 7) 7) <;>
  cases h6 : ex (mkHash (bytes 6 8) 8) <;>
  cases h7 : ex (mkHash (bytes 7 9) 9) <;>
  cases h8 : ex (mkHash (bytes 8 10) 10) <;>
    simp [generateUniqueHash, retryLoop, escalationLoop, retryIndices_eq,
      escalationPairs_eq, genAt, okSupply, okCheck, hashLength, maxRetries,
      retryIndices, escalationPairs, specFirstFresh, specCandidates,
      List.find?, h0, h1, h2, h3, h4, h5, h6, h7, h8]

/-- A candidate built from `n` drawn bytes has exactly `n` characters:
the trimmed encoding of `n` bytes has `(4n+2)/3 ≥ n` characters, and the
truncation cuts it to `n`. -/
theorem mkHash_length (bytes : List Nat) (n : Nat) (hb : bytes.length = n) :
    (mkHash bytes n).length = n := by
  unfold mkHash
  rw [trimRightEq_encodeChunks]
  have hlen : (unpadded bytes).length = (4 * n + 2) / 3 := by
    rw [unpadded_length, hb]
  by_cases hcmp : n < (unpadded bytes).length
  · simp only [hcmp, if_true, List.length_take]
    omega
  · simp only [hcmp, if_false]
    omega

/-- Every character of a candidate is a base64url character. -/
theorem mkHash_mem_alphabet (bytes : List Nat) (n : Nat) :
    ∀ c ∈ mkHash bytes n, c ∈ b64Alphabet := by
  intro c hc
  unfold mkHash at hc
  rw [trimRightEq_encodeChunks] at hc
  by_cases hcmp : n < (unpadded bytes).length
  · simp only [hcmp, if_true] at hc
    exact unpadded_mem_alphabet bytes c (List.take_subset n (unpadded bytes) hc)
  · simp only [hcmp, if_false] at hc
    exact unpadded_mem_alphabet bytes c hc

/-- A generation attempt fails exactly when its entropy read fails, with
the same error. -/
theorem genAt_error_iff (supply : Nat → Nat → Except String (List Nat))
    (idx n : Nat) (e : String) :
    genAt supply idx n = Except.error e ↔ supply idx n = Except.error e := by
  unfold genAt
  cases h : supply idx n <;> simp

theorem genAt_ok (supply : Nat → Nat → Except String (List Nat))
    (idx n : Nat) (bs : List Nat) (h : supply idx n = Except.ok bs) :
    genAt supply idx n = Except.ok (mkHash bs n) := by
  unfold genAt
  rw [h]

/-! ## database/db.go

The `urls` table (`id INTEGER PRIMARY KEY AUTOINCREMENT, full_url TEXT,
short_hash TEXT UNIQUE, created_at DATETIME, clicks INTEGER DEFAULT 0`)
is modelled as a list of records in insertion order, together with the
autoincrement counter and a clock for `time.Now()`. -/

/-- One row of the `urls` table (the `URL` struct of database/db.go). -/
structure URLRec where
  id : Nat
  fullURL : String
  shortHash : List Char
  createdAt : Nat
  clicks : Nat
deriving DecidableEq

/-- The sqlite database state. -/
structure Store where
  rows : List URLRec
  nextId : Nat
  time : Nat
deriving DecidableEq

/-- A fresh database, as `createTables` leaves it. -/
def emptyStore : Store := { rows := [], nextId := 1, time := 0 }

/-- `CreateURL`: `INSERT INTO urls (full_url, short_hash, created_at,
clicks) VALUES (?, ?, ?, 0)`.  The `UNIQUE` constraint on `short_hash`
makes the insert fail with a constraint error when a row with the same
hash already exists; otherwise the new row is appended and returned. -/
def createURL (s : Store) (fullURL : String) (shortHash : List Char) :
    Except String (URLRec × Store) :=
  if s.rows.any (fun r => r.shortHash == shortHash) then
    Except.error "UNIQUE constraint failed: urls.short_hash"
  else
    Except.ok
      ({ id := s.nextId, fullURL := fullURL, shortHash := shortHash,
         createdAt := s.time, clicks := 0 },
       { rows := s.rows ++
           [{ id := s.nextId, fullURL := fullURL, shortHash := shortHash,
              createdAt := s.time, clicks := 0 }],
         nextId := s.nextId + 1, time := s.time })

/-- `GetURLByHash`: `SELECT ... FROM urls WHERE short_hash = ?` via
`QueryRow.Scan`; `sql.ErrNoRows` when no row matches. -/
def getURLByHash (s : Store) (shortHash : List Char) :
    Except String URLRec :=
  match s.rows.find? (fun r => r.shortHash == shortHash) with
  | some row => Except.ok row
  | none => Except.error "sql: no rows in result set"

/-- `IncrementClicks`: `UPDATE urls SET clicks = clicks + 1 WHERE
short_hash = ?` — bumps every matching row; an `UPDATE` matching zero
rows still succeeds. -/
def incrementClicks (s : Store) (shortHash : List Char) :
    Except String Store :=
  Except.ok
    { s with rows := s.rows.map (fun r =>
        if r.shortHash == shortHash then { r with clicks := r.clicks + 1 }
        else r) }

/-- `CheckHashExists`: `SELECT EXISTS(SELECT 1 FROM urls WHERE
short_hash = ?)`. -/
def checkHashExists (s : Store) (shortHash : List Char) :
    Except String Bool :=
  Except.ok (s.rows.any (fun r => r.shortHash == shortHash))

/-- Clicks of the row `GetURLByHash` would return for this identifier. -/
def clicksOf (s : Store) (shortHash : List Char) : Option Nat :=
  (s.rows.find? (fun r => r.shortHash == shortHash)).map (fun r => r.clicks)

/-! ## main.go handlers -/

/-- Observable outcome of `shortenHandler`: an error redirect
(`/?error=...`) or a success redirect (`/?success=<hash>`). -/
inductive ShortenOutcome where
  | errorRedirect : String → ShortenOutcome
  | successRedirect : List Char → ShortenOutcome
deriving DecidableEq

/-- Go's `strings.HasPrefix(s, p)`: `p` is a leading substring of `s`. -/
def strStartsWith (s p : String) : Bool :=
  p.toList.isPrefixOf s.toList

/-- The URL-scheme normalization of `shortenHandler`: `if
!strings.HasPrefix(fullURL, "http://") && !strings.HasPrefix(fullURL,
"https://") { fullURL = "https://" + fullURL }`. -/
def normalizeURL (u : String) : String :=
  if !(strStartsWith u "http://") && !(strStartsWith u "https://") then
    "https://" ++ u
  else u

/-- `shortenHandler` of main.go, after form parsing: an absent or empty
`url` field redirects with an error; otherwise the URL is normalized,
an identifier is allocated (`genResult` is the outcome of the
`GenerateUniqueHash(db.CheckHashExists)` call, a parameter because it
reads the shared database at an earlier moment than the insert), and
`db.CreateURL` runs exactly once — any create failure is surfaced as an
error redirect, and a success redirects to `/?success=<hash>`. -/
def shortenHandler (s : Store) (urlForm : String)
    (genResult : Except String (List Char)) : ShortenOutcome × Store :=
  if urlForm = "" then (ShortenOutcome.errorRedirect "URL is required", s)
  else
    match genResult with
    | Except.error _ =>
      (ShortenOutcome.errorRedirect "Failed to generate short URL", s)
    | Except.ok shortHash =>
      match createURL s (normalizeURL urlForm) shortHash with
      | Except.error _ =>
        (ShortenOutcome.errorRedirect "Failed to save URL", s)
      | Except.ok (_, s2) =>
        (ShortenOutcome.successRedirect shortHash, s2)

/-- Observable outcome of `redirectHandler`: `http.NotFound` or an HTTP
302 to the stored target URL. -/
inductive RedirectOutcome where
  | notFound : RedirectOutcome
  | redirect : String → RedirectOutcome
deriving DecidableEq

/-- `redirectHandler` of main.go over the outcomes of its two database
calls: a failed lookup yields `http.NotFound`; on a successful lookup a
failed `IncrementClicks` is only logged and the redirect to
`url.FullURL` happens regardless. -/
def redirectHandler (lookup : Except String URLRec)
    (inc : Except String Unit) : RedirectOutcome :=
  match lookup with
  | Except.error _ => RedirectOutcome.notFound
  | Except.ok row =>
    match inc with
    | Except.error _ => RedirectOutcome.redirect row.fullURL
    | Except.ok _ => RedirectOutcome.redirect row.fullURL

/-- `redirectHandler` composed with the store semantics of its two
database calls: lookup, then click increment, then redirect. -/
def resolveStore (s : Store) (shortHash : List Char) :
    Except String (String × Store) :=
  match getURLByHash s shortHash with
  | Except.error e => Except.error e
  | Except.ok row =>
    match incrementClicks s shortHash with
    | Except.error _ => Except.ok (row.fullURL, s)
    | Except.ok s2 => Except.ok (row.fullURL, s2)

/-- `N` successive successful resolutions of the same identifier;
`none` when any of them fails. -/
def resolveN (shortHash : List Char) : Nat → Store → Option Store
  | 0, s => some s
  | Nat.succ n, s =>
    match resolveStore s shortHash with
    | Except.error _ => none
    | Except.ok (_, s2) => resolveN shortHash n s2

/-! ## Store lemmas -/

theorem find?_append_of_none (p : URLRec → Bool) (l1 l2 : List URLRec)
    (h : l1.find? p = none) : (l1 ++ l2).find? p = l2.find? p := by
  induction l1 with
  | nil => simp
  | cons x xs ih =>
    rw [List.find?_cons] at h
    cases hx : p x
    · rw [List.cons_append, List.find?_cons, hx]
      rw [hx] at h
      exact ih h
    · rw [hx] at h
      simp at h

/-- The click bump of `IncrementClicks` keeps every row's hash, so the
row `find?` locates is the bumped version of the row it located
before. -/
theorem find?_map_bump (h g : List Char) (l : List URLRec) :
    (l.map (fun r =>
        if r.shortHash == h then { r with clicks := r.clicks + 1 }
        else r)).find? (fun r => r.shortHash == g) =
      (l.find? (fun r => r.shortHash == g)).map (fun r =>
        if r.shortHash == h then { r with clicks := r.clicks + 1 }
        else r) := by
  induction l with
  | nil => simp
  | cons x xs ih =>
    rw [List.map_cons, List.find?_cons, List.find?_cons]
    have hpres :
        ((if x.shortHash == h then { x with clicks := x.clicks + 1 }
          else x) : URLRec).shortHash = x.shortHash := by
      by_cases hx : x.shortHash == h <;> simp [hx]
    cases hg : (x.shortHash == g)
    · rw [hpres, hg]
      exact ih
    · rw [hpres, hg]
      simp

theorem clicksOf_increment_self (s : Store) (h : List Char) (c : Nat)
    (hc : clicksOf s h = some c) (s2 : Store)
    (hs : incrementClicks s h = Except.ok s2) :
    clicksOf s2 h = some (c + 1) := by
  unfold incrementClicks at hs
  cases hs
  unfold clicksOf at hc ⊢
  simp only [find?_map_bump]
  cases hfind : s.rows.find? (fun r => r.shortHash == h) with
  | none => rw [hfind] at hc; simp at hc
  | some row =>
    rw [hfind] at hc
    simp at hc
    have hrow := List.find?_some hfind
    simp only at hrow
    simp only [hfind, Option.map]
    have heq : row.shortHash = h := by simpa using hrow
    simp [heq, hc]

theorem clicksOf_increment_other (s : Store) (h g : List Char)
    (hgh : (g == h) = false) (s2 : Store)
    (hs : incrementClicks s h = Except.ok s2) :
    clicksOf s2 g = clicksOf s g := by
  unfold incrementClicks at hs
  cases hs
  unfold clicksOf
  simp only [find?_map_bump]
  cases hfind : s.rows.find? (fun r => r.shortHash == g) with
  | none => simp
  | some row =>
    have hrow := List.find?_some hfind
    have hr : row.shortHash = g := by
      simpa using hrow
    have hrh : ¬ row.shortHash = h := by
      rw [hr]
      simpa using hgh
    simp [hrh]

theorem map_of_fixed (l : List URLRec) (f : URLRec → URLRec)
    (hf : ∀ r ∈ l, f r = r) : l.map f = l := by
  induction l with
  | nil => rfl
  | cons x xs ih =>
    rw [List.map_cons, hf x (by simp)]
    rw [ih (fun r hr => hf r (by simp [hr]))]

/-- An `UPDATE` matching no row leaves the table unchanged (and the
call still returns no error). -/
theorem incrementClicks_no_match (s : Store) (h : List Char)
    (hno : ∀ r ∈ s.rows, (r.shortHash == h) = false) :
    incrementClicks s h = Except.ok s := by
  unfold incrementClicks
  have hmap : s.rows.map (fun r =>
      if r.shortHash == h then { r with clicks := r.clicks + 1 }
      else r) = s.rows := by
    apply map_of_fixed
    intro r hr
    simp [hno r hr]
  rw [hmap]

theorem any_false_iff (p : URLRec → Bool) (l : List URLRec) :
    l.any p = false ↔ ∀ r ∈ l, p r = false := by
  induction l with
  | nil => simp
  | cons x xs ih =>
    rw [List.any_cons]
    constructor
    · intro hx
      have hor := Bool.or_eq_false_iff.mp hx
      intro r hr
      rcases List.mem_cons.mp hr with hre | hrm
      · rw [hre]; exact hor.1
      · exact (ih.mp hor.2) r hrm
    · intro hall
      apply Bool.or_eq_false_iff.mpr
      exact ⟨hall x (by simp), ih.mpr (fun r hr => hall r (by simp [hr]))⟩

theorem find?_append_of_some (p : URLRec → Bool) (l1 l2 : List URLRec)
    (x : URLRec) (h : l1.find? p = some x) :
    (l1 ++ l2).find? p = some x := by
  induction l1 with
  | nil => simp at h
  | cons y ys ih =>
    rw [List.cons_append, List.find?_cons]
    rw [List.find?_cons] at h
    cases hy : p y
    · rw [hy] at h
      exact ih h
    · rw [hy] at h
      exact h

theorem createURL_ok (s : Store) (u : String) (h : List Char)
    (row : URLRec) (s2 : Store)
    (hc : createURL s u h = Except.ok (row, s2)) :
    s.rows.any (fun r => r.shortHash == h) = false ∧
      row = { id := s.nextId, fullURL := u, shortHash := h,
              createdAt := s.time, clicks := 0 } ∧
      s2.rows = s.rows ++ [row] := by
  unfold createURL at hc
  cases hany : s.rows.any (fun r => r.shortHash == h)
  · rw [hany] at hc
    simp only [Bool.false_eq_true, if_false, Except.ok.injEq, Prod.mk.injEq] at hc
    exact ⟨rfl, hc.1.symm, by rw [← hc.2, ← hc.1]⟩
  · rw [hany] at hc
    simp at hc

/-! ## Claim theorems -/

/-- Claim C1, behavior of the code at the failing input: with an
existence oracle that reports every candidate as already existing, the
allocation runs all five default-length attempts and the four escalated
attempts and then returns the empty identifier as a plain success
(`return "", nil`), not an `AllocationExhausted` error.  This is the
silent-exhaustion behavior the specification explicitly disallows. -/
theorem allocation_exhaustion_yields_empty_success :
    generateUniqueHash (okSupply (fun _ len => List.replicate len 0))
        (okCheck (fun _ => true)) =
      Except.ok ([] : List Char) := by
  rw [generateUniqueHash_eq_specFirstFresh]
  rfl

/-- Claim C3: over a fault-free entropy supply and existence oracle, the
allocation examines exactly the five default-length (6-character)
candidates followed by one candidate at each of the lengths 7, 8, 9, 10,
in that order, and returns the first candidate the oracle reports as not
existing. -/
theorem allocation_attempt_order (bytes : Nat → Nat → List Nat)
    (ex : List Char → Bool) :
    generateUniqueHash (okSupply bytes) (okCheck ex) =
      Except.ok (specFirstFresh bytes ex) :=
  generateUniqueHash_eq_specFirstFresh bytes ex

/-- Claim C5: the identifier generator at length `n` requests `n` bytes
from the entropy source, base64url-encodes them, trims the padding and
truncates, yielding exactly `n` base64url characters; it fails exactly
when the entropy read fails, with the same error; the default length
`hashLength` is 6, and `GenerateShortHash` is the generator at the
default length. -/
theorem generator_contract (supply : Nat → Nat → Except String (List Nat))
    (idx n : Nat) :
    (∀ bs, supply idx n = Except.ok bs → bs.length = n →
        genAt supply idx n = Except.ok (mkHash bs n) ∧
        (mkHash bs n).length = n ∧
        ∀ c ∈ mkHash bs n, c ∈ b64Alphabet) ∧
    (∀ e, genAt supply idx n = Except.error e ↔
        supply idx n = Except.error e) ∧
    hashLength = 6 ∧
    generateShortHash supply idx = genAt supply idx hashLength := by
  refine ⟨?_, ?_, rfl, rfl⟩
  · intro bs hok hlen
    exact ⟨genAt_ok supply idx n bs hok, mkHash_length bs n hlen,
      mkHash_mem_alphabet bs n⟩
  · intro e
    exact genAt_error_iff supply idx n e

/-- Witness for the generator contract at a concrete 6-byte read. -/
theorem generator_contract_witness :
    genAt (okSupply (fun _ len => List.replicate len 0)) 0 6 =
        Except.ok (mkHash (List.replicate 6 0) 6) ∧
      (mkHash (List.replicate 6 0) 6).length = 6 := by
  have happ :=
    (generator_contract (okSupply (fun _ len => List.replicate len 0)) 0 6).1
      (List.replicate 6 0) rfl (by decide)
  exact ⟨happ.1, happ.2.1⟩

/-- Claim C4: if creating a link for target URL `u` succeeds with
identifier `h`, then looking `h` up returns the created row whose stored
target is exactly `u`, and the redirect resolution of `h` returns `u`
unchanged. -/
theorem round_trip (s : Store) (u : String) (h : List Char)
    (row : URLRec) (s2 : Store)
    (hc : createURL s u h = Except.ok (row, s2)) :
    getURLByHash s2 h = Except.ok row ∧ row.fullURL = u ∧
      ∃ t, resolveStore s2 h = Except.ok (u, t) := by
  obtain ⟨hany, hrow, hrows⟩ := createURL_ok s u h row s2 hc
  have hnone : s.rows.find? (fun r => r.shortHash == h) = none := by
    rw [List.find?_eq_none]
    intro r hr
    simp [(any_false_iff _ _).mp hany r hr]
  have hself : (row.shortHash == h) = true := by
    rw [hrow]
    simp
  have hget : getURLByHash s2 h = Except.ok row := by
    unfold getURLByHash
    rw [hrows, find?_append_of_none _ _ _ hnone]
    rw [List.find?_cons]
    rw [hself]
  refine ⟨hget, by rw [hrow], ?_⟩
  unfold resolveStore
  rw [hget]
  unfold incrementClicks
  exact ⟨_, by rw [hrow]⟩

/-- Witness for the round trip: creating `https://example.com` in the
empty database under identifier `a` and resolving it. -/
theorem round_trip_witness :
    getURLByHash
        { rows := [{ id := 1, fullURL := "https://example.com",
                     shortHash := ['a'], createdAt := 0, clicks := 0 }],
          nextId := 2, time := 0 } ['a'] =
      Except.ok { id := 1, fullURL := "https://example.com",
                  shortHash := ['a'], createdAt := 0, clicks := 0 } ∧
    ({ id := 1, fullURL := "https://example.com", shortHash := ['a'],
       createdAt := 0, clicks := 0 } : URLRec).fullURL =
      "https://example.com" ∧
    ∃ t, resolveStore
        { rows := [{ id := 1, fullURL := "https://example.com",
                     shortHash := ['a'], createdAt := 0, clicks := 0 }],
          nextId := 2, time := 0 } ['a'] =
      Except.ok ("https://example.com", t) :=
  round_trip emptyStore "https://example.com" ['a']
    { id := 1, fullURL := "https://example.com", shortHash := ['a'],
      createdAt := 0, clicks := 0 }
    { rows := [{ id := 1, fullURL := "https://example.com",
                 shortHash := ['a'], createdAt := 0, clicks := 0 }],
      nextId := 2, time := 0 }
    rfl

/-- Claim C7: `IncrementClicks` on an identifier matching no stored row
succeeds and leaves the whole store unchanged; on a matching identifier
it adds exactly 1 to that row's click count and leaves every other
identifier's count unchanged. -/
theorem increment_clicks_contract (s : Store) (h : List Char) :
    ((∀ r ∈ s.rows, (r.shortHash == h) = false) →
        incrementClicks s h = Except.ok s) ∧
    (∀ s2, incrementClicks s h = Except.ok s2 →
      (∀ c, clicksOf s h = some c → clicksOf s2 h = some (c + 1)) ∧
      (∀ g, (g == h) = false → clicksOf s2 g = clicksOf s g)) := by
  refine ⟨incrementClicks_no_match s h, ?_⟩
  intro s2 hs
  exact ⟨fun c hc => clicksOf_increment_self s h c hc s2 hs,
    fun g hg => clicksOf_increment_other s h g hg s2 hs⟩

/-- Witness for the increment contract: a store holding hash `a` with 3
clicks; incrementing a missing hash `b` is a no-op, incrementing `a`
yields 4. -/
theorem increment_clicks_contract_witness :
    incrementClicks
        { rows := [{ id := 1, fullURL := "https://example.com",
                     shortHash := ['a'], createdAt := 0, clicks := 3 }],
          nextId := 2, time := 0 } ['b'] =
      Except.ok
        { rows := [{ id := 1, fullURL := "https://example.com",
                     shortHash := ['a'], createdAt := 0, clicks := 3 }],
          nextId := 2, time := 0 } ∧
    clicksOf
        { rows := [{ id := 1, fullURL := "https://example.com",
                     shortHash := ['a'], createdAt := 0, clicks := 4 }],
          nextId := 2, time := 0 } ['a'] = some 4 := by
  constructor
  · exact (increment_clicks_contract
      { rows := [{ id := 1, fullURL := "https://example.com",
                   shortHash := ['a'], createdAt := 0, clicks := 3 }],
        nextId := 2, time := 0 } ['b']).1 (by decide)
  · have happ := ((increment_clicks_contract
      { rows := [{ id := 1, fullURL := "https://example.com",
                   shortHash := ['a'], createdAt := 0, clicks := 3 }],
        nextId := 2, time := 0 } ['a']).2
      { rows := [{ id := 1, fullURL := "https://example.com",
                   shortHash := ['a'], createdAt := 0, clicks := 4 }],
        nextId := 2, time := 0 } rfl).1 3 rfl
    simpa using happ

/-- Claim C8: resolving an identifier with no matching link yields
`http.NotFound`; on a successful lookup the handler redirects to the
stored target URL whatever the outcome of the click increment is, in
particular when the increment fails. -/
theorem resolution_contract (s : Store) (h : List Char)
    (inc : Except String Unit) :
    ((∀ r ∈ s.rows, (r.shortHash == h) = false) →
        redirectHandler (getURLByHash s h) inc = RedirectOutcome.notFound) ∧
    (∀ row, getURLByHash s h = Except.ok row →
      ∀ inc2 : Except String Unit,
        redirectHandler (getURLByHash s h) inc2 =
          RedirectOutcome.redirect row.fullURL) := by
  constructor
  · intro hno
    have hnone : s.rows.find? (fun r => r.shortHash == h) = none := by
      rw [List.find?_eq_none]
      intro r hr
      simp [hno r hr]
    unfold getURLByHash redirectHandler
    rw [hnone]
  · intro row hrow inc2
    unfold redirectHandler
    rw [hrow]
    cases inc2 <;> rfl

/-- Witness for the resolution contract: lookup miss on the empty store,
and a hit whose increment fails with a storage error. -/
theorem resolution_contract_witness :
    redirectHandler (getURLByHash emptyStore ['a']) (Except.ok ()) =
      RedirectOutcome.notFound ∧
    redirectHandler
        (getURLByHash
          { rows := [{ id := 1, fullURL := "https://example.com",
                       shortHash := ['a'], createdAt := 0, clicks := 0 }],
            nextId := 2, time := 0 } ['a'])
        (Except.error "database is locked") =
      RedirectOutcome.redirect "https://example.com" := by
  constructor
  · exact (resolution_contract emptyStore ['a'] (Except.ok ())).1
      (by intro r hr; simp [emptyStore] at hr)
  · exact (resolution_contract
      { rows := [{ id := 1, fullURL := "https://example.com",
                   shortHash := ['a'], createdAt := 0, clicks := 0 }],
        nextId := 2, time := 0 } ['a'] (Except.ok ())).2
      { id := 1, fullURL := "https://example.com", shortHash := ['a'],
        createdAt := 0, clicks := 0 } rfl
      (Except.error "database is locked")

theorem resolveN_adds (h : List Char) (N : Nat) :
    ∀ s t c, resolveN h N s = some t → clicksOf s h = some c →
      clicksOf t h = some (c + N) := by
  induction N with
  | zero =>
    intro s t c hres hc
    unfold resolveN at hres
    cases hres
    simpa using hc
  | succ n ih =>
    intro s t c hres hc
    unfold resolveN at hres
    unfold resolveStore at hres
    cases hfind : s.rows.find? (fun r => r.shortHash == h) with
    | none =>
      unfold getURLByHash at hres
      rw [hfind] at hres
      simp at hres
    | some row =>
      have hget : getURLByHash s h = Except.ok row := by
        unfold getURLByHash
        rw [hfind]
      rw [hget] at hres
      simp only [incrementClicks] at hres
      have hstep := clicksOf_increment_self s h c hc _ rfl
      have htail := ih _ t (c + 1) hres hstep
      rw [htail]
      congr 1
      omega

/-- Claim C6: a link is created with click count 0 and creation does not
change any existing link's count; `N` successful resolutions of an
identifier add exactly `N` to its count; the increment operation adds
exactly 1 to the matching identifier and leaves all others unchanged, so
counts never decrease and change only through the increment.  Lookups
(`getURLByHash`, `checkHashExists`) take and return no store at all. -/
theorem click_count_laws (s : Store) (u : String) (h : List Char) :
    (∀ row s2, createURL s u h = Except.ok (row, s2) →
        row.clicks = 0 ∧ clicksOf s2 h = some 0 ∧
        ∀ g c, clicksOf s g = some c → clicksOf s2 g = some c) ∧
    (∀ N t c, resolveN h N s = some t → clicksOf s h = some c →
        clicksOf t h = some (c + N)) ∧
    (∀ s2, incrementClicks s h = Except.ok s2 →
        (∀ c, clicksOf s h = some c → clicksOf s2 h = some (c + 1)) ∧
        ∀ g, (g == h) = false → clicksOf s2 g = clicksOf s g) := by
  refine ⟨?_, fun N t c hres hc => resolveN_adds h N s t c hres hc, ?_⟩
  · intro row s2 hc
    obtain ⟨hany, hrow, hrows⟩ := createURL_ok s u h row s2 hc
    have hnone : s.rows.find? (fun r => r.shortHash == h) = none := by
      rw [List.find?_eq_none]
      intro r hr
      simp [(any_false_iff _ _).mp hany r hr]
    have hself : (row.shortHash == h) = true := by
      rw [hrow]; simp
    refine ⟨by rw [hrow], ?_, ?_⟩
    · unfold clicksOf
      rw [hrows, find?_append_of_none _ _ _ hnone, List.find?_cons, hself]
      rw [hrow]
      rfl
    · intro g c hg
      unfold clicksOf at hg ⊢
      cases hfind : s.rows.find? (fun r => r.shortHash == g) with
      | none => rw [hfind] at hg; simp at hg
      | some r0 =>
        rw [hfind] at hg
        rw [hrows, find?_append_of_some _ _ _ _ hfind]
        exact hg
  · intro s2 hs
    exact ⟨fun c hc => clicksOf_increment_self s h c hc s2 hs,
      fun g hg => clicksOf_increment_other s h g hg s2 hs⟩

/-- Witness for the click-count laws: create a link in the empty store,
then resolve it three times; its count goes from 0 to 3. -/
theorem click_count_laws_witness :
    ({ id := 1, fullURL := "https://example.com", shortHash := ['a'],
       createdAt := 0, clicks := 0 } : URLRec).clicks = 0 ∧
    clicksOf
      { rows := [{ id := 1, fullURL := "https://example.com",
                   shortHash := ['a'], createdAt := 0, clicks := 0 }],
        nextId := 2, time := 0 } ['a'] = some 0 ∧
    clicksOf
      { rows := [{ id := 1, fullURL := "https://example.com",
                   shortHash := ['a'], createdAt := 0, clicks := 3 }],
        nextId := 2, time := 0 } ['a'] = some (0 + 3) := by
  have hcreate := (click_count_laws emptyStore "https://example.com"
    ['a']).1
    { id := 1, fullURL := "https://example.com", shortHash := ['a'],
      createdAt := 0, clicks := 0 }
    { rows := [{ id := 1, fullURL := "https://example.com",
                 shortHash := ['a'], createdAt := 0, clicks := 0 }],
      nextId := 2, time := 0 } rfl
  have hresolve := (click_count_laws
    { rows := [{ id := 1, fullURL := "https://example.com",
                 shortHash := ['a'], createdAt := 0, clicks := 0 }],
      nextId := 2, time := 0 } "https://example.com" ['a']).2.1 3
    { rows := [{ id := 1, fullURL := "https://example.com",
                 shortHash := ['a'], createdAt := 0, clicks := 3 }],
      nextId := 2, time := 0 } 0 rfl rfl
  exact ⟨hcreate.1, hcreate.2.1, hresolve⟩

/-- Claim C2, behavior of the code at the failing input: a concurrent
writer has stored identifier `x` between this request's existence check
and its insert; `db.CreateURL` then fails with the sqlite uniqueness
Conflict and `shortenHandler` surfaces it to the caller as the
`Failed to save URL` error redirect — it performs no second allocation
cycle and no second create attempt. -/
theorem conflict_surfaces_to_caller :
    createURL
        { rows := [{ id := 1, fullURL := "https://other.example",
                     shortHash := ['x'], createdAt := 0, clicks := 0 }],
          nextId := 2, time := 0 }
        "https://example.com" ['x'] =
      Except.error "UNIQUE constraint failed: urls.short_hash" ∧
    shortenHandler
        { rows := [{ id := 1, fullURL := "https://other.example",
                     shortHash := ['x'], createdAt := 0, clicks := 0 }],
          nextId := 2, time := 0 }
        "https://example.com" (Except.ok ['x']) =
      (ShortenOutcome.errorRedirect "Failed to save URL",
       { rows := [{ id := 1, fullURL := "https://other.example",
                    shortHash := ['x'], createdAt := 0, clicks := 0 }],
         nextId := 2, time := 0 }) :=
  ⟨rfl, rfl⟩

theorem shortenHandler_ok_eq (s : Store) (u : String) (h : List Char)
    (hne : ¬ u = "") :
    shortenHandler s u (Except.ok h) =
      (match createURL s (normalizeURL u) h with
       | Except.error _ =>
         (ShortenOutcome.errorRedirect "Failed to save URL", s)
       | Except.ok (_, s2) =>
         (ShortenOutcome.successRedirect h, s2)) := by
  unfold shortenHandler
  rw [if_neg hne]

/-- Claim C9: for a nonempty submitted URL without an `http://` or
`https://` prefix, a successful shorten stores `https://` followed by
the submitted URL byte-for-byte; a URL already carrying either prefix is
stored unchanged. -/
theorem scheme_normalization (s : Store) (u : String) (h : List Char)
    (s2 : Store) :
    (¬ u = "" → (strStartsWith u "http://") = false →
      (strStartsWith u "https://") = false →
      shortenHandler s u (Except.ok h) =
        (ShortenOutcome.successRedirect h, s2) →
      ∃ row, s2.rows = s.rows ++ [row] ∧
        row.fullURL = "https://" ++ u ∧ row.shortHash = h) ∧
    ((strStartsWith u "http://") = true ∨
        (strStartsWith u "https://") = true →
      shortenHandler s u (Except.ok h) =
        (ShortenOutcome.successRedirect h, s2) →
      ∃ row, s2.rows = s.rows ++ [row] ∧
        row.fullURL = u ∧ row.shortHash = h) := by
  constructor
  · intro hne hp1 hp2 hrun
    have hnorm : normalizeURL u = "https://" ++ u := by
      unfold normalizeURL
      rw [hp1, hp2]
      simp
    rw [shortenHandler_ok_eq s u h hne, hnorm] at hrun
    unfold createURL at hrun
    cases hany : s.rows.any (fun r => r.shortHash == h)
    · rw [hany] at hrun
      simp only [Bool.false_eq_true, if_false, Prod.mk.injEq] at hrun
      refine ⟨_, by rw [← hrun.2], rfl, rfl⟩
    · rw [hany] at hrun
      simp at hrun
  · intro hpre hrun
    have hne : ¬ u = "" := by
      intro he
      rw [he] at hpre
      rcases hpre with hp | hp <;> exact absurd hp (by decide)
    have hnorm : normalizeURL u = u := by
      unfold normalizeURL
      rcases hpre with hp | hp <;> rw [hp] <;> simp
    rw [shortenHandler_ok_eq s u h hne, hnorm] at hrun
    unfold createURL at hrun
    cases hany : s.rows.any (fun r => r.shortHash == h)
    · rw [hany] at hrun
      simp only [Bool.false_eq_true, if_false, Prod.mk.injEq] at hrun
      refine ⟨_, by rw [← hrun.2], rfl, rfl⟩
    · rw [hany] at hrun
      simp at hrun

/-- Witness for scheme normalization: shortening `example.com` in the
empty store stores `https://example.com`; shortening
`http://plain.example` stores it unchanged. -/
theorem scheme_normalization_witness :
    (∃ row, ({ rows := [{ id := 1, fullURL := "https://example.com",
                          shortHash := ['a'], createdAt := 0,
                          clicks := 0 }],
               nextId := 2, time := 0 } : Store).rows =
        emptyStore.rows ++ [row] ∧
      row.fullURL = "https://" ++ "example.com" ∧ row.shortHash = ['a']) ∧
    (∃ row, ({ rows := [{ id := 1, fullURL := "http://plain.example",
                          shortHash := ['b'], createdAt := 0,
                          clicks := 0 }],
               nextId := 2, time := 0 } : Store).rows =
        emptyStore.rows ++ [row] ∧
      row.fullURL = "http://plain.example" ∧ row.shortHash = ['b']) := by
  constructor
  · exact (scheme_normalization emptyStore "example.com" ['a']
      { rows := [{ id := 1, fullURL := "https://example.com",
                   shortHash := ['a'], createdAt := 0, clicks := 0 }],
        nextId := 2, time := 0 }).1
      (by decide) (by decide) (by decide) rfl
  · exact (scheme_normalization emptyStore "http://plain.example" ['b']
      { rows := [{ id := 1, fullURL := "http://plain.example",
                   shortHash := ['b'], createdAt := 0, clicks := 0 }],
        nextId := 2, time := 0 }).2
      (Or.inl (by decide)) rfl

/-- Claim C10, counterexample to the claim as stated: when every
candidate collides, `GenerateUniqueHash` returns the empty identifier as
a success value, whose length 0 is not between 6 and 10. -/
theorem success_identifier_shape_counterexample :
    generateUniqueHash (okSupply (fun _ len => List.replicate len 65))
        (okCheck (fun _ => true)) = Except.ok ([] : List Char) ∧
      ([] : List Char).length < 6 := by
  constructor
  · rw [generateUniqueHash_eq_specFirstFresh]
    rfl
  · decide

theorem candidateShape (bytes : Nat → Nat → List Nat)
    (hb : ∀ idx len, (bytes idx len).length = len) (i len : Nat)
    (h : List Char) (he : h = mkHash (bytes i len) len) :
    h.length = len ∧ ∀ c ∈ h, c ∈ b64Alphabet := by
  rw [he]
  exact ⟨mkHash_length _ _ (hb i len), mkHash_mem_alphabet _ _⟩

/-- Claim C10, amended: every identifier returned as a success for a
candidate the oracle reported fresh has length between 6 and 10 —
exactly 6 for a default-phase candidate and exactly the escalated
length 7, 8, 9 or 10 for an escalation-phase candidate — and consists
only of base64url characters; the exhaustion path, however, returns the
empty (length-0) string as a success value. -/
theorem success_identifier_shape (bytes : Nat → Nat → List Nat)
    (hb : ∀ idx len, (bytes idx len).length = len)
    (ex : List Char → Bool) (h : List Char)
    (hres : generateUniqueHash (okSupply bytes) (okCheck ex) =
      Except.ok h)
    (hne : ¬ h = []) :
    (6 ≤ h.length ∧ h.length ≤ 10) ∧ (∀ c ∈ h, c ∈ b64Alphabet) ∧
    ((∃ i, i < 5 ∧ h = mkHash (bytes i 6) 6 ∧ h.length = 6) ∨
     (∃ j, j < 4 ∧ h = mkHash (bytes (5 + j) (7 + j)) (7 + j) ∧
        h.length = 7 + j)) := by
  rw [generateUniqueHash_eq_specFirstFresh] at hres
  have hh : specFirstFresh bytes ex = h := by
    simpa using hres
  unfold specFirstFresh at hh
  cases hf : (specCandidates bytes).find? (fun c => !(ex c)) with
  | none =>
    rw [hf] at hh
    exact absurd hh.symm hne
  | some c =>
    rw [hf] at hh
    have hcmem := List.mem_of_find?_eq_some hf
    simp only [specCandidates, List.mem_cons, List.not_mem_nil,
      or_false] at hcmem
    rcases hcmem with he|he|he|he|he|he|he|he|he
    · obtain ⟨hl, hal⟩ := candidateShape bytes hb 0 6 h (by rw [← hh, he])
      exact ⟨⟨by omega, by omega⟩, hal,
        Or.inl ⟨0, by omega, by rw [← hh, he], hl⟩⟩
    · obtain ⟨hl, hal⟩ := candidateShape bytes hb 1 6 h (by rw [← hh, he])
      exact ⟨⟨by omega, by omega⟩, hal,
        Or.inl ⟨1, by omega, by rw [← hh, he], hl⟩⟩
    · obtain ⟨hl, hal⟩ := candidateShape bytes hb 2 6 h (by rw [← hh, he])
      exact ⟨⟨by omega, by omega⟩, hal,
        Or.inl ⟨2, by omega, by rw [← hh, he], hl⟩⟩
    · obtain ⟨hl, hal⟩ := candidateShape bytes hb 3 6 h (by rw [← hh, he])
      exact ⟨⟨by omega, by omega⟩, hal,
        Or.inl ⟨3, by omega, by rw [← hh, he], hl⟩⟩
    · obtain ⟨hl, hal⟩ := candidateShape bytes hb 4 6 h (by rw [← hh, he])
      exact ⟨⟨by omega, by omega⟩, hal,
        Or.inl ⟨4, by omega, by rw [← hh, he], hl⟩⟩
    · obtain ⟨hl, hal⟩ := candidateShape bytes hb 5 7 h (by rw [← hh, he])
      exact ⟨⟨by omega, by omega⟩, hal,
        Or.inr ⟨0, by omega, by rw [← hh, he], hl⟩⟩
    · obtain ⟨hl, hal⟩ := candidateShape bytes hb 6 8 h (by rw [← hh, he])
      exact ⟨⟨by omega, by omega⟩, hal,
        Or.inr ⟨1, by omega, by rw [← hh, he], hl⟩⟩
    · obtain ⟨hl, hal⟩ := candidateShape bytes hb 7 9 h (by rw [← hh, he])
      exact ⟨⟨by omega, by omega⟩, hal,
        Or.inr ⟨2, by omega, by rw [← hh, he], hl⟩⟩
    · obtain ⟨hl, hal⟩ := candidateShape bytes hb 8 10 h (by rw [← hh, he])
      exact ⟨⟨by omega, by omega⟩, hal,
        Or.inr ⟨3, by omega, by rw [← hh, he], hl⟩⟩

/-- Witness for the amended identifier-shape claim: an oracle that
reports every candidate fresh makes the allocation return the first
default-length candidate, of length exactly 6. -/
theorem success_identifier_shape_witness :
    (6 ≤ (mkHash (List.replicate 6 0) 6).length ∧
      (mkHash (List.replicate 6 0) 6).length ≤ 10) ∧
    (∀ c ∈ mkHash (List.replicate 6 0) 6, c ∈ b64Alphabet) ∧
    ((∃ i, i < 5 ∧
        mkHash (List.replicate 6 0) 6 =
          mkHash ((fun _ len => List.replicate len 0) i 6) 6 ∧
        (mkHash (List.replicate 6 0) 6).length = 6) ∨
     (∃ j, j < 4 ∧
        mkHash (List.replicate 6 0) 6 =
          mkHash ((fun _ len => List.replicate len 0) (5 + j) (7 + j))
            (7 + j) ∧
        (mkHash (List.replicate 6 0) 6).length = 7 + j)) :=
  success_identifier_shape (fun _ len => List.replicate len 0)
    (fun idx len => by simp) (fun _ => false)
    (mkHash (List.replicate 6 0) 6) rfl (by decide)

end QrLinker
